import Mathlib

/-
Verification of the beautifultable layout engine (src/beautifultable/beautifultable.py,
src/beautifultable/utils.py) against its natural-language specification.

Strings are embedded as lists of characters (`Str`).  The model restricts cell
values to strings or None: the ANSI / wide-glyph machinery (ansi.py) is not part
of src/, so `termwidth` is modelled from the spec (section 4.1) on width-1
characters, and `textwrap` is modelled from the spec (section 4.2).
Python integers are embedded as Nat where the source values are provably
non-negative, and as Int where a subtraction can genuinely go negative
(noted at each spot).
-/

abbrev Str := List Char

/-- Modelled from the spec (section 4.1): `utils.termwidth` delegates to
`ANSIMultiByteString.termwidth` (ansi.py, absent from src/).  The model carries
no escape sequences and no wide glyphs, so every character occupies one
terminal column and the visible width is the length. -/
def termwidth (s : Str) : Nat := s.length

/-- Python `str.isspace()`: true iff the string is non-empty and all characters
are whitespace.  In particular `"".isspace()` is `False`. -/
def pyIsSpace (s : Str) : Bool := !s.isEmpty && s.all (fun c => c.isWhitespace)

/-- Python `str.split('\n')`: `"" -> [""]`, separators produce empty pieces. -/
def splitNl : Str → List Str
  | [] => [[]]
  | c :: rest =>
    let r := splitNl rest
    if c = '\n' then [] :: r
    else
      match r with
      | s :: ss => (c :: s) :: ss
      | [] => [[c]]

/-- Python `sep.join(parts)`. -/
def joinWith (sep : Str) : List Str → Str
  | [] => []
  | [x] => x
  | x :: y :: xs => x ++ sep ++ joinWith sep (y :: xs)

def joinNlStr (ls : List Str) : Str := joinWith ['\n'] ls

/-- Python `str.strip()` (whitespace from both ends). -/
def pyStrip (s : Str) : Str :=
  ((s.dropWhile (fun c => c.isWhitespace)).reverse.dropWhile
    (fun c => c.isWhitespace)).reverse

/-- `itertools.zip_longest(*ls, fillvalue := fill)` as used by the renderer. -/
def zipLongest (fill : α) (ls : List (List α)) : List (List α) :=
  let k := ls.foldl (fun m l => max m l.length) 0
  (List.range k).map (fun j => ls.map (fun l => l.getD j fill))

/-- Python `zip(*rows)` (transpose truncated to the shortest row), the shape
used by `_calculate_width` over `self._data`; `d` is the (unreachable)
out-of-range default. -/
def pyZipStar (d : α) (rows : List (List α)) : List (List α) :=
  match rows with
  | [] => []
  | r :: rs =>
    let k := rs.foldl (fun m r2 => min m r2.length) r.length
    (List.range k).map (fun j => (r :: rs).map (fun row => row.getD j d))

/-- Insertion position of Python `list.insert(i, x)`: negative indices count
from the end, then the position is clamped into `[0, len]`. -/
def pyInsertPos (len : Nat) (i : Int) : Nat :=
  if i < 0 then ((len : Int) + i).toNat else min i.toNat len

/-- Insert at a plain (already clamped) position. -/
def listInsertAt : Nat → α → List α → List α
  | 0, a, l => a :: l
  | _ + 1, a, [] => [a]
  | n + 1, a, x :: xs => x :: listInsertAt n a xs

def pyListInsert (l : List α) (i : Int) (x : α) : List α :=
  listInsertAt (pyInsertPos l.length i) x l

/-- Normalise a Python sequence index: negative counts from the end; `none`
when out of range (Python raises IndexError there). -/
def pyNormIdx (len : Nat) (i : Int) : Option Nat :=
  let j : Int := if i < 0 then (len : Int) + i else i
  if 0 ≤ j ∧ j < (len : Int) then some j.toNat else none

/-- Python `list.pop(i)` / `del l[i]`, restricted to its effect on the list.
On an out-of-range index Python raises IndexError; the model returns the list
unchanged (no theorem below exercises that branch). -/
def pyDelAt (l : List α) (i : Int) : List α :=
  match pyNormIdx l.length i with
  | some j => l.eraseIdx j
  | none => l

/-- The value returned by Python `list.pop(i)` (default `d` out of range). -/
def pyGetAt (l : List α) (i : Int) (d : α) : α :=
  match pyNormIdx l.length i with
  | some j => l.getD j d
  | none => d

/-- Python slice `s[:k]` for an `Int` bound: a negative bound counts from the
end and the result is clamped to the string. -/
def pySliceTo (s : Str) (k : Int) : Str :=
  let m : Int := if k < 0 then (s.length : Int) + k else k
  s.take m.toNat

/-- Python dict assignment `d[k] = v` on an association list with unique keys:
overwrite the existing binding in place, else append. -/
def dictInsert : List (Nat × Nat) → Nat → Nat → List (Nat × Nat)
  | [], k, v => [(k, v)]
  | p :: rest, k, v => if p.1 = k then (k, v) :: rest else p :: dictInsert rest k v

/-- Python dict lookup `d[k]` (with an unreachable default). -/
def dictLookupD : List (Nat × Nat) → Nat → Nat → Nat
  | [], _, dflt => dflt
  | p :: rest, k, dflt => if p.1 = k then p.2 else dictLookupD rest k dflt

/-- Index (at most `width`, inside the string) of the last whitespace character
usable as a break point, scanning the window Python-style. -/
def lastBreak (s : Str) (width : Nat) : Option Nat :=
  (List.range (min (width + 1) s.length)).foldl
    (fun acc i => if (s.getD i 'a').isWhitespace then some i else acc) none

/-- Greedy wrapping loop for a positive width `wpred + 1`: break at the last
whitespace inside the window if any (consuming it), else hard-break.  The
recursion is driven by a fuel argument so the function reduces by structural
recursion; every step consumes at least one character, so fuel equal to the
string length (as supplied by `wrapGo`) never runs out. -/
def wrapFuel : Nat → Nat → Str → List Str
  | 0, _, s => [s]
  | fuel + 1, wpred, s =>
    if s.length ≤ wpred + 1 then [s]
    else
      match lastBreak s (wpred + 1) with
      | some i => s.take i :: wrapFuel fuel wpred (s.drop (i + 1))
      | none => s.take (wpred + 1) :: wrapFuel fuel wpred (s.drop (wpred + 1))

def wrapGo (wpred : Nat) (s : Str) : List Str := wrapFuel s.length wpred s

/-- Modelled from the spec (section 4.2): `utils.textwrap` delegates to
`ANSIMultiByteString.wrap` (ansi.py, absent from src/).  Contract followed:
every produced line has display width at most `width` (for `width > 0`),
breaks happen preferentially at whitespace with a hard mid-token break as
fallback, empty input gives one empty line, and `width ≤ 0` degrades to
one-character lines. -/
def textwrap (s : Str) (width : Nat) : List Str :=
  if width = 0 then (if s.length = 0 then [[]] else s.map (fun c => [c]))
  else if s.length = 0 then [[]]
  else wrapGo (width - 1) s

/-- `textwrap` on a possibly non-positive Python width: `width ≤ 0` collapses
to the degenerate case. -/
def textwrapI (s : Str) (w : Int) : List Str := textwrap s w.toNat

/-- Digits of a natural number (via `Nat.repr`). -/
def natDigits (n : Nat) : Str := (Nat.repr n).toList

def parseDigits (s : Str) : Option Nat :=
  if s ≠ [] ∧ s.all (fun c => c.isDigit) then
    some (s.foldl (fun acc c => acc * 10 + (c.toNat - 48)) 0)
  else none

/-- Python `int(str)`: optional surrounding whitespace, optional sign, digits.
(Underscore separators and other exotic forms are outside the model.) -/
def pyParseInt (s : Str) : Option Int :=
  match pyStrip s with
  | [] => none
  | c :: rest =>
    if c = '-' then (parseDigits rest).map (fun n => -(n : Int))
    else if c = '+' then (parseDigits rest).map (fun n => (n : Int))
    else (parseDigits (c :: rest)).map (fun n => (n : Int))

/-- Python `"{:{sign}}".format(n)` for an integer and a sign mode character
('-' , '+' or ' '). -/
def pyFormatInt (sign : Char) (n : Int) : Str :=
  if n < 0 then '-' :: natDigits n.natAbs
  else if sign = '+' then '+' :: natDigits n.natAbs
  else if sign = ' ' then ' ' :: natDigits n.natAbs
  else natDigits n.natAbs

/-- `utils.pre_process(item, detect_numerics, precision, sign_value)` for the
model's value domain (strings or None).  `None` renders as the empty string.
With numeric detection on, a string parseable as a Python int is formatted via
the sign mode; the float branch (`round`, float formatting) is outside the
model because cells here are strings, and the sign-format of non-numeric
strings raises ValueError in Python and is swallowed, leaving the string
unchanged. -/
def preProcessVal (detect : Bool) (sign : Char) (v : Option Str) : Str :=
  match v with
  | none => []
  | some s =>
    if detect then
      match pyParseInt s with
      | some n => pyFormatInt sign n
      | none => s
    else s

inductive BTAlign where
  | left
  | center
  | right
deriving DecidableEq, Repr

inductive BTWep where
  | wrap
  | strip
  | ellipsis
deriving DecidableEq, Repr

inductive BTError where
  | typeError
  | valueError
  | indexError
  | keyError
deriving DecidableEq, Repr

/-- The table state: row data, per-row headers, parallel per-column metadata
(header, alignment, width, paddings), the cached column count `_ncol`, the
stored `_maxwidth`, configuration and style glyphs.  Cell values are strings
or None (nested tables and non-string values are outside the model); the pad
character is the space, as in the source (`_pad_character = " "`, never
reassigned). -/
structure BTTable where
  rows : List (List (Option Str))
  rowHeaders : List (Option Str)
  headers : List (Option Str)
  alignments : List BTAlign
  widths : List Nat
  padLeft : List Nat
  padRight : List Nat
  ncol : Nat
  maxwidth : Nat
  wep : BTWep
  detectNumerics : Bool
  signChar : Char
  serialno : Bool
  serialnoHeader : Str
  defaultAlignment : BTAlign
  defaultPadding : Nat
  leftBorderChar : Str
  rightBorderChar : Str
  columnSeparatorChar : Str
  topBorderChar : Str
  bottomBorderChar : Str
  headerSeparatorChar : Str
  rowSeparatorChar : Str
  intersectTopLeft : Str
  intersectTopMid : Str
  intersectTopRight : Str
  intersectHeaderLeft : Str
  intersectHeaderMid : Str
  intersectHeaderRight : Str
  intersectRowLeft : Str
  intersectRowMid : Str
  intersectRowRight : Str
  intersectBottomLeft : Str
  intersectBottomMid : Str
  intersectBottomRight : Str
deriving DecidableEq, Repr

/-- The data-model invariants of section 3 of the spec: every row has `ncol`
cells, every column-metadata array has `ncol` entries, and the row-header
array tracks the row count. -/
def BTWF (t : BTTable) : Prop :=
  t.headers.length = t.ncol ∧ t.alignments.length = t.ncol ∧
  t.widths.length = t.ncol ∧ t.padLeft.length = t.ncol ∧
  t.padRight.length = t.ncol ∧ (∀ r ∈ t.rows, r.length = t.ncol) ∧
  t.rowHeaders.length = t.rows.length

instance (t : BTTable) : Decidable (BTWF t) := by
  unfold BTWF; infer_instance

/-- `BeautifulTable.width` (the property, lines 1764-1783): 0 for no columns,
otherwise the column widths plus separators and borders. -/
def btWidth (t : BTTable) : Nat :=
  if t.ncol = 0 then 0
  else t.widths.sum + (t.ncol - 1) * termwidth t.columnSeparatorChar
       + termwidth t.leftBorderChar + termwidth t.rightBorderChar

/-- `BTColumns._reset_state(ncol)` (lines 590-597): fresh metadata arrays of
size `ncol` and every data row rebuilt as `ncol` Nones (the data rebuild uses
`BTBaseRow.__mul__` from base.py, absent from src/; modelled as row
replication, which is what the data-model invariant requires). -/
def btColumnsResetState (t : BTTable) (ncol : Nat) : BTTable :=
  { t with
    ncol := ncol
    headers := List.replicate ncol none
    alignments := List.replicate ncol t.defaultAlignment
    widths := List.replicate ncol 0
    padLeft := List.replicate ncol t.defaultPadding
    padRight := List.replicate ncol t.defaultPadding
    rows := List.replicate t.rows.length (List.replicate ncol none) }

/-- `BTRows.insert(index, row, header)` (lines 446-473): on an empty column
set, the column state is first initialised from the row length; then the row
header and the row are inserted (Python `list.insert` clamping semantics). -/
def btRowsInsert (t : BTTable) (index : Int) (row : List (Option Str))
    (header : Option Str) : BTTable :=
  let t1 := if t.ncol = 0 then btColumnsResetState t row.length else t
  { t1 with
    rowHeaders := pyListInsert t1.rowHeaders index header
    rows := pyListInsert t1.rows index row }

/-- `BTRows.append(row, header)` (lines 475-487): delegates to
`self.insert(len(self), row)` — the `header` argument is not passed on, so the
inserted row header is the default `None`. -/
def btRowsAppend (t : BTTable) (row : List (Option Str))
    (_header : Option Str) : BTTable :=
  btRowsInsert t (t.rows.length : Int) row none

/-- `BTRows.pop(index)` (lines 425-444): IndexError on an empty table (before
any mutation), otherwise the row and its header are removed.  An out-of-range
index raises from `data._pop` before the header is touched, so the state is
returned unchanged with the error. -/
def btRowsPop (t : BTTable) (index : Int) :
    Except BTError (List (Option Str)) × BTTable :=
  if t.rows.length = 0 then (Except.error BTError.indexError, t)
  else
    match pyNormIdx t.rows.length index with
    | none => (Except.error BTError.indexError, t)
    | some j =>
      (Except.ok (t.rows.getD j []),
       { t with rows := t.rows.eraseIdx j, rowHeaders := pyDelAt t.rowHeaders index })

/-- `BTColumns.__delitem__` for an integer key (lines 837-854): metadata
entries, the cell of every row and the header are deleted in lockstep,
`_ncol` is recomputed from the headers, and if it drained to 0 all rows (and
row headers) are cleared via `del self._table.rows[:]`. -/
def btColumnsDelInt (t : BTTable) (key : Int) : BTTable :=
  let headers1 := pyDelAt t.headers key
  let rows1 := t.rows.map (fun r => pyDelAt r key)
  let ncol1 := headers1.length
  { t with
    alignments := pyDelAt t.alignments key
    widths := pyDelAt t.widths key
    padLeft := pyDelAt t.padLeft key
    padRight := pyDelAt t.padRight key
    headers := headers1
    ncol := ncol1
    rows := if ncol1 = 0 then [] else rows1
    rowHeaders := if ncol1 = 0 then [] else t.rowHeaders }

/-- `BTColumns.pop(index)` (lines 909-947): IndexError on a table with no
columns; otherwise the column cells are popped from every row, the metadata
and header entries are popped, `_ncol` is recomputed, and draining the last
column clears all rows. -/
def btColumnsPop (t : BTTable) (index : Int) :
    Except BTError (List (Option Str)) × BTTable :=
  if t.ncol = 0 then (Except.error BTError.indexError, t)
  else
    let res := t.rows.map (fun r => pyGetAt r index none)
    let headers1 := pyDelAt t.headers index
    let rows1 := t.rows.map (fun r => pyDelAt r index)
    let ncol1 := headers1.length
    (Except.ok res,
     { t with
       alignments := pyDelAt t.alignments index
       widths := pyDelAt t.widths index
       padLeft := pyDelAt t.padLeft index
       padRight := pyDelAt t.padRight index
       headers := headers1
       ncol := ncol1
       rows := if ncol1 = 0 then [] else rows1
       rowHeaders := if ncol1 = 0 then [] else t.rowHeaders })

/-- `BTColumns.insert(index, column, header)` (lines 974-1029).  With no
existing columns only the headers and the data are replaced (the source
updates neither `_ncol` nor the other metadata in that branch).  Otherwise:
TypeError if the header is not a string; the column items are inserted into
the rows pairwise (`zip` truncates at the shorter); on full coverage the
metadata is committed, else the source rolls back by popping `index` from
rows `column_length` down to `0` — one row more than was modified — and
raises ValueError, with the table state as mutated by that loop. -/
def btColumnsInsert (t : BTTable) (index : Int) (column : List (Option Str))
    (header : Option Str) : Option BTError × BTTable :=
  if t.ncol = 0 then
    (none, { t with headers := [header], rows := column.map (fun c => [c]) })
  else
    match header with
    | none => (some BTError.typeError, t)
    | some hd =>
      let k := min t.rows.length column.length
      let rows1 := ((t.rows.zip column).map
        (fun p => pyListInsert p.1 index p.2)) ++ t.rows.drop k
      if k = t.rows.length then
        (none,
         { t with
           ncol := t.ncol + 1
           headers := pyListInsert t.headers index (some hd)
           widths := pyListInsert t.widths index 0
           alignments := pyListInsert t.alignments index t.defaultAlignment
           padLeft := pyListInsert t.padLeft index t.defaultPadding
           padRight := pyListInsert t.padRight index t.defaultPadding
           rows := rows1 })
      else
        (some BTError.valueError,
         { t with
           rows := rows1.enum.map (fun p => if p.1 ≤ k then pyDelAt p.2 index else p.2) })

/-- Maximum display width over the newline-split pieces of a rendered value,
with the inner `pre_process` re-applied to every piece exactly as in the two
scanning loops of `_calculate_width` (lines 1552-1575). -/
def maxLineWidthPP (detect : Bool) (sign : Char) (v : Option Str) : Nat :=
  ((splitNl (preProcessVal detect sign v)).map
    (fun l => termwidth (preProcessVal detect sign (some l)))).foldl max 0

/-- The per-column natural content widths of `_calculate_width` (lines
1552-1575): the header scan seeds `maxwidths[index]` and the data scan (over
`zip(*self._data)`) folds every cell in.  The loops write through positions of
the existing arrays; under the data-model invariant (headers, metadata and
every row share the length `ncol`) this is the per-header map below. -/
def btNaturalWidths (t : BTTable) : List Nat :=
  let cols := pyZipStar none t.rows
  t.headers.enum.map (fun p =>
    let hw := maxLineWidthPP t.detectNumerics t.signChar p.2
    match cols.get? p.1 with
    | some col =>
      col.foldl (fun m cell => max m (maxLineWidthPP t.detectNumerics t.signChar cell)) hw
    | none => hw)

/-- `pad_widths` of `_calculate_width` (line 1545): per-column left+right pad.
The source indexes both arrays over `range(len(self.columns))`; under the
data-model invariant this is the pointwise sum. -/
def btPadWidths (t : BTTable) : List Nat :=
  List.zipWith (fun a b => a + b) t.padLeft t.padRight

/-- `offset` of `_calculate_width` (line 1547):
`table_width - sum(widths) + sum(pad_widths)`.  The subtraction is exact
because `self.width` is the widths plus the separator/border charge. -/
def cwOffset (t : BTTable) : Nat :=
  btWidth t - t.widths.sum + (btPadWidths t).sum

/-- The `_maxwidth` update of `_calculate_width` (lines 1548-1550):
`max(_maxwidth, offset + len(columns))`. -/
def cwMaxwidth (t : BTTable) : Nat := max t.maxwidth (cwOffset t + t.ncol)

/-- `desired_sum = self._maxwidth - offset` (line 1578); non-negative because
`_maxwidth` was just raised to at least `offset + ncol`. -/
def cwDesired (t : BTTable) : Nat := cwMaxwidth t - cwOffset t

/-- The fair share `int(desired_sum / len(self.columns))` (line 1584);
with no columns the comparison never runs in the source, and the Lean value
(0) is never used. -/
def cwFair (t : BTTable) : Nat := cwDesired t / t.ncol

/-- `temp_sum` (lines 1581-1589): flagged columns contribute their width,
all others contribute the 1-character floor. -/
def cwTemp (t : BTTable) : Nat :=
  ((btNaturalWidths t).map (fun w => if w ≤ cwFair t then w else 1)).sum

/-- `avail_space = desired_sum - temp_sum` (line 1591); the Python value is
non-negative whenever the table has a column (each summand of `temp_sum` is at
most the fair share), so the Nat subtraction is exact on reachable states. -/
def cwAvail (t : BTTable) : Nat := cwDesired t - cwTemp t

/-- `actual_space = sum_ - temp_sum` (line 1592); non-negative because every
unflagged column has width above the fair share. -/
def cwActual (t : BTTable) : Nat := (btNaturalWidths t).sum - cwTemp t

/-- The shrink step for one column (lines 1597-1603): flagged columns keep
their natural width; others get `1 + int((w - 1) * avail / actual)` when that
is smaller. -/
def cwShrunkWidth (fair avail actual w : Nat) : Nat :=
  if w ≤ fair then w
  else if 1 + (w - 1) * avail / actual < w then 1 + (w - 1) * avail / actual
  else w

/-- The widths after the shrink loop: the loop stores a value into
`self.columns.width[i]` for every `i`, so the old widths are fully
overwritten (under the invariant that the widths array has one slot per
natural width). -/
def cwStage2 (t : BTTable) : List Nat :=
  (btNaturalWidths t).map (cwShrunkWidth (cwFair t) (cwAvail t) (cwActual t))

/-- `shrinked_columns` (lines 1593-1603): a dict keyed by the shrunk width
whose value is the column index — columns shrunk to the same width collide and
the later column wins, exactly as in the source. -/
def cwShDict (t : BTTable) : List (Nat × Nat) :=
  (btNaturalWidths t).enum.foldl
    (fun d p =>
      if p.2 ≤ cwFair t then d
      else if 1 + (p.2 - 1) * cwAvail t / cwActual t < p.2 then
        dictInsert d (1 + (p.2 - 1) * cwAvail t / cwActual t) p.1
      else d)
    []

/-- The remainder-redistribution loop body (lines 1610-1621): iterating the
sorted distinct shrunk widths with enumeration index `i`, the floor share is
added at position `i` of the widths array (the source's `self.columns.width[i]
+= extra_width` — position, not column index), and on the final iteration the
recomputed residual is added at the recorded column index. -/
def redistLoop (desired extra actual2 : Nat) (sh : List (Nat × Nat))
    (lastIdx : Nat) : Nat → List Nat → List Nat → List Nat
  | _, ws, [] => ws
  | i, ws, w :: rest =>
    let index := dictLookupD sh w 0
    let ws1 := ws.set i (ws.getD i 0 + w * extra / actual2)
    let ws2 :=
      if i = lastIdx then ws1.set index (ws1.getD index 0 + (desired - ws1.sum))
      else ws1
    redistLoop desired extra actual2 sh lastIdx (i + 1) ws2 rest

/-- Lines 1605-1621: if any column was shrunk, `extra = _maxwidth - offset -
sum(widths)` is redistributed when positive (a negative Python `extra` skips
the loop exactly as the Nat value 0 does), with `actual_space` re-bound to the
sum of the dict keys (the distinct shrunk widths). -/
def cwRedistribute (desired : Nat) (sh : List (Nat × Nat)) (ws : List Nat) : List Nat :=
  if sh.isEmpty then ws
  else
    let extra := desired - ws.sum
    let actual2 := (sh.map Prod.fst).sum
    if extra = 0 then ws
    else
      let ks := List.insertionSort (fun a b => a ≤ b) (sh.map Prod.fst)
      redistLoop desired extra actual2 sh (ks.length - 1) 0 ws ks

/-- The widths after redistribution, before the pads are added back. -/
def cwStage3 (t : BTTable) : List Nat :=
  cwRedistribute (cwDesired t) (cwShDict t) (cwStage2 t)

/-- `BeautifulTable._calculate_width` (lines 1541-1624): natural widths,
fair-share flagging, proportional shrink, remainder redistribution, and the
pad add-back loop (`self.columns.width[i] += pad_widths[i]` over
`range(ncol)`, which under the data-model invariant is the pointwise sum).
The updated `_maxwidth` is the only other field the method writes. -/
def calculateWidth (t : BTTable) : BTTable :=
  { t with
    widths := List.zipWith (fun a b => a + b) (cwStage3 t) (btPadWidths t)
    maxwidth := cwMaxwidth t }

/-- The spec's minimum feasible width (section 4.5): one printable character
per column, plus each column's own padding, separators and borders. -/
def btMinFeasibleWidth (t : BTTable) : Nat :=
  t.ncol + (btPadWidths t).sum + (t.ncol - 1) * termwidth t.columnSeparatorChar
  + termwidth t.leftBorderChar + termwidth t.rightBorderChar

/-- The redistribution policy exactly as the claim words it (a definition
following the claim, for comparison with the source behaviour): every shrunk
column's own width grows by `floor(shrunkWidth_i * extra / sum(shrunkWidths))`
— the sum over all shrunk columns — and the final shrunk column in ascending
order of shrunk width (ties broken towards the later column) additionally
absorbs the residual. -/
def claimRedistribute (desired : Nat) (shrunk : List (Nat × Nat)) (ws : List Nat) : List Nat :=
  if shrunk.isEmpty then ws
  else
    let extra := desired - ws.sum
    let total := (shrunk.map Prod.snd).sum
    if extra = 0 then ws
    else
      let ws1 := shrunk.foldl
        (fun acc p => acc.set p.1 (acc.getD p.1 0 + p.2 * extra / total)) ws
      match (List.insertionSort
          (fun a b => a.2 < b.2 ∨ (a.2 = b.2 ∧ a.1 ≤ b.1)) shrunk).getLast? with
      | some p => ws1.set p.1 (ws1.getD p.1 0 + (desired - ws1.sum))
      | none => ws1

/-- The list of `(columnIndex, shrunkWidth)` pairs of the claim's policy
(no dict collision: every shrunk column appears). -/
def claimShrunkList (t : BTTable) : List (Nat × Nat) :=
  ((btNaturalWidths t).enum.filter
    (fun p => decide (¬ p.2 ≤ cwFair t) &&
      decide (1 + (p.2 - 1) * cwAvail t / cwActual t < p.2))).map
    (fun p => (p.1, 1 + (p.2 - 1) * cwAvail t / cwActual t))

/-- The final widths predicted by the claim's redistribution policy (the rest
of the allocator as in the source). -/
def claimAllocWidths (t : BTTable) : List Nat :=
  List.zipWith (fun a b => a + b)
    (claimRedistribute (cwDesired t) (claimShrunkList t) (cwStage2 t))
    (btPadWidths t)

/-- `BTRowData._clamp_string(row_item, index, delimiter)` (lines 107-141).
The printable width is computed as a Python int (it can be negative when the
pads exceed the column width, hence `Int`); a string that fits is returned
unchanged, otherwise the first wrapped line of width `width - len(delimiter)`
gets the delimiter appended, and when even the delimiter does not fit it is
right-truncated by a Python slice. -/
def clampString (t : BTTable) (rowItem : Str) (index : Nat) (delimiter : Str) : Str :=
  let width : Int := (t.widths.getD index 0 : Int)
    - (t.padLeft.getD index 0 : Int) - (t.padRight.getD index 0 : Int)
  if (termwidth rowItem : Int) ≤ width then rowItem
  else if 0 ≤ width - (delimiter.length : Int) then
    (textwrapI rowItem (width - (delimiter.length : Int))).headD [] ++ delimiter
  else pySliceTo delimiter width

def padChars (n : Nat) : Str := List.replicate n ' '

/-- One output row of the strip/ellipsis branch of `_clamp_row`
(lines 70-87): left pad, clamped string, right pad, per column. -/
def clampBuild (t : BTTable) (row : List Str) (delim : Str) : List Str :=
  row.enum.map (fun p =>
    padChars (t.padLeft.getD p.1 0) ++ clampString t p.2 p.1 delim
      ++ padChars (t.padRight.getD p.1 0))

/-- `BTRowData._clamp_row(row)` (lines 50-105): strip/ellipsis yield a single
padded row; wrap re-flows every cell through the wrapper at its printable
width and pads each zip-longest line; an empty result degrades to one row of
`ncol` empty cells. -/
def clampRow (t : BTTable) (row : List Str) : List (List Str) :=
  let res :=
    match t.wep with
    | BTWep.strip => [clampBuild t row []]
    | BTWep.ellipsis => [clampBuild t row ("...".toList)]
    | BTWep.wrap =>
      let parts := row.enum.map (fun p =>
        textwrapI p.2 ((t.widths.getD p.1 0 : Int)
          - (t.padLeft.getD p.1 0 : Int) - (t.padRight.getD p.1 0 : Int)))
      (zipLongest [] parts).map (fun items =>
        items.enum.map (fun p =>
          padChars (t.padLeft.getD p.1 0) ++ p.2 ++ padChars (t.padRight.getD p.1 0)))
  if res.isEmpty then [List.replicate t.ncol []] else res

/-- The manual alignment of `BTRowData.__str__` (lines 176-186): pad to the
column width on the right / left / both sides; a cell already wider than the
column gets no padding (Python multiplies the pad string by a non-positive
count). -/
def alignCell (a : BTAlign) (w : Nat) (s : Str) : Str :=
  let padLen := w - termwidth s
  match a with
  | BTAlign.left => s ++ padChars padLen
  | BTAlign.right => padChars padLen ++ s
  | BTAlign.center => padChars (padLen / 2) ++ s ++ padChars (padLen - padLen / 2)

/-- `BTRowData.__str__` (lines 143-191) for string/None cells (a nested-table
cell is outside the model): each cell is rendered and split on newlines, the
lines are zipped longest with empty fill, re-preprocessed, clamped, aligned to
the column widths, joined with the column separator and framed by the
borders. -/
def rowToStr (t : BTTable) (row : List (Option Str)) : Str :=
  let cellLines := row.map (fun item =>
    splitNl (preProcessVal t.detectNumerics t.signChar item))
  let groups := zipLongest ([] : Str) cellLines
  let lines := groups.foldl (fun acc grp =>
    let grp2 := grp.map (fun s => preProcessVal t.detectNumerics t.signChar (some s))
    acc ++ (clampRow t grp2).map (fun row2 =>
      let aligned := (List.range t.ncol).map (fun i =>
        alignCell (t.alignments.getD i BTAlign.center) (t.widths.getD i 0)
          (row2.getD i []))
      t.leftBorderChar ++ joinWith t.columnSeparatorChar aligned
        ++ t.rightBorderChar)) []
  joinNlStr lines

/-- `char * k` for a Python string. -/
def strRepeat (s : Str) : Nat → Str
  | 0 => []
  | k + 1 => s ++ strRepeat s k

/-- The base line of `_get_horizontal_line` (lines 1684-1687): the fill
character repeated and truncated to the table width; an empty fill raises
ZeroDivisionError, caught and replaced by blanks. -/
def hlBase (t : BTTable) (ch : Str) : Str :=
  if ch.length = 0 then List.replicate (btWidth t) ' '
  else (strRepeat ch (btWidth t / termwidth ch + 1)).take (btWidth t)

/-- The left-intersection stamp (lines 1695-1704): applied when the left
border is non-empty and not (border blank while the glyph is visible). -/
def hlLeft (t : BTTable) (il : Str) (line : Str) : Str :=
  if 0 < termwidth t.leftBorderChar ∧
      ¬ (pyIsSpace t.leftBorderChar = true ∧ pyIsSpace il = false) then
    (List.range (min (termwidth t.leftBorderChar) (termwidth il))).foldl
      (fun l i => l.set i (il.getD i ' ')) line
  else line

/-- The right-intersection stamp (lines 1705-1714), written from the end of
the line and of the glyph string (Python negative indexing). -/
def hlRight (t : BTTable) (ir : Str) (line : Str) : Str :=
  if 0 < termwidth t.rightBorderChar ∧
      ¬ (pyIsSpace t.rightBorderChar = true ∧ pyIsSpace ir = false) then
    (List.range (min (termwidth t.rightBorderChar) (termwidth ir))).foldl
      (fun l i => l.set (l.length - 1 - i) (ir.getD (ir.length - 1 - i) ' ')) line
  else line

/-- The column-boundary stamps (lines 1715-1728): walking `index` across the
column widths and separators from the left border. -/
def hlMid (t : BTTable) (im : Str) (line : Str) : Str :=
  if termwidth t.columnSeparatorChar ≠ 0 ∧
      ¬ (pyIsSpace t.columnSeparatorChar = true ∧ pyIsSpace im = false) then
    ((List.range (t.ncol - 1)).foldl
      (fun p i =>
        let idx := p.2 + t.widths.getD i 0
        let l := (List.range (min (termwidth t.columnSeparatorChar)
            (termwidth im))).foldl
          (fun l j => l.set (idx + j) (im.getD j ' ')) p.1
        (l, idx + termwidth t.columnSeparatorChar))
      (line, termwidth t.leftBorderChar)).1
  else line

/-- `BeautifulTable._get_horizontal_line(char, il, im, ir)` (lines 1662-1730).
The base line repeats the fill character up to the table width.  When the fill
is not `isspace()` — note that the empty string is not `isspace()` — the left,
right and mid intersection glyphs are stamped in place.  Out-of-range stamps
cannot occur when the widths are consistent with the table width; the
`List.set` model leaves the list unchanged there. -/
def getHorizontalLine (t : BTTable) (ch il im ir : Str) : Str :=
  let line := hlBase t ch
  if line.length = 0 then []
  else if pyIsSpace ch then line
  else hlMid t im (hlRight t ir (hlLeft t il line))

def btGetTopBorder (t : BTTable) : Str :=
  getHorizontalLine t t.topBorderChar t.intersectTopLeft t.intersectTopMid
    t.intersectTopRight

def btGetHeaderSeparator (t : BTTable) : Str :=
  getHorizontalLine t t.headerSeparatorChar t.intersectHeaderLeft
    t.intersectHeaderMid t.intersectHeaderRight

def btGetRowSeparator (t : BTTable) : Str :=
  getHorizontalLine t t.rowSeparatorChar t.intersectRowLeft t.intersectRowMid
    t.intersectRowRight

def btGetBottomBorder (t : BTTable) : Str :=
  getHorizontalLine t t.bottomBorderChar t.intersectBottomLeft
    t.intersectBottomMid t.intersectBottomRight

/-- The serial-number column temporarily inserted by `_get_string`
(`range(1, len(self) + 1)`, rendered by `pre_process` as decimal strings). -/
def serialColumn (t : BTTable) : List (Option Str) :=
  (List.range t.rows.length).map (fun i => some (natDigits (i + 1)))

/-- Python truthiness of the border-character strings. -/
def btStrTruthy (s : Str) : Bool := !s.isEmpty

/-- The header-emission test of `_get_string` (line 1811): the headers joined
(None as empty) and stripped must be non-empty. -/
def headersNonBlank (t : BTTable) : Bool :=
  !(pyStrip (t.headers.foldr (fun h acc => h.getD [] ++ acc) [])).isEmpty

/-- The data-row section of `_get_string` (lines 1819-1825): each row rendered,
with a row separator between successive rows when its glyph is non-empty. -/
def rowsSection (t : BTTable) : List Str :=
  match t.rows with
  | [] => []
  | r :: rs =>
    rowToStr t r :: rs.foldl (fun acc r2 =>
      acc ++ (if btStrTruthy t.rowSeparatorChar then [btGetRowSeparator t] else [])
        ++ [rowToStr t r2]) []

/-- `BeautifulTable._get_string(rows := [], append := False, recalculate_width)`
(lines 1789-1845), as consumed by `get_string`: optional serial-number column
insertion, width calculation when requested or never done, the serial-column
width fix-up, then top border, header block, rows with separators, bottom
border, and removal of the serial column.  Returns the emitted lines and the
final table state. -/
def btGetStringLines (t0 : BTTable) (recalc : Bool) : List Str × BTTable :=
  let t1 := if t0.serialno ∧ 0 < t0.ncol then
      (btColumnsInsert t0 0 (serialColumn t0) (some t0.serialnoHeader)).2
    else t0
  let t2 := if recalc ∨ t1.widths.sum = 0 then calculateWidth t1 else t1
  let fixw := max 4 t2.serialnoHeader.length + 2 * t2.defaultPadding
  let t3 := if t2.serialno ∧ 0 < t2.ncol ∧ t2.widths.getD 0 0 = 0 then
      { t2 with widths := t2.widths.set 0 fixw }
    else t2
  let top := if btStrTruthy t3.topBorderChar then [btGetTopBorder t3] else []
  let hdr :=
    if headersNonBlank t3 then
      [rowToStr t3 t3.headers] ++
        (if btStrTruthy t3.headerSeparatorChar then [btGetHeaderSeparator t3] else [])
    else []
  let body := rowsSection t3
  let bottom := if btStrTruthy t3.bottomBorderChar then [btGetBottomBorder t3] else []
  let t4 := if t3.serialno ∧ 0 < t3.ncol then (btColumnsPop t3 0).2 else t3
  (top ++ hdr ++ body ++ bottom, t4)

/-- `BeautifulTable.get_string(recalculate_width)` (lines 1873-1899): an empty
table returns the empty string immediately — before the serial column, the
width calculation or any border work — leaving the state untouched; otherwise
the `_get_string` lines are joined with newlines. -/
def btGetString (t : BTTable) (recalc : Bool) : Str × BTTable :=
  if t.rows.length = 0 then ([], t)
  else
    let p := btGetStringLines t recalc
    (joinNlStr p.1, p.2)

/-- A concrete table in the default style (`STYLE_DEFAULT`), used as the base
of the examples below. -/
def btBase : BTTable where
  rows := []
  rowHeaders := []
  headers := []
  alignments := []
  widths := []
  padLeft := []
  padRight := []
  ncol := 0
  maxwidth := 80
  wep := BTWep.wrap
  detectNumerics := false
  signChar := '-'
  serialno := false
  serialnoHeader := "SN".toList
  defaultAlignment := BTAlign.center
  defaultPadding := 1
  leftBorderChar := "|".toList
  rightBorderChar := "|".toList
  columnSeparatorChar := "|".toList
  topBorderChar := "-".toList
  bottomBorderChar := "-".toList
  headerSeparatorChar := "-".toList
  rowSeparatorChar := "-".toList
  intersectTopLeft := "+".toList
  intersectTopMid := "+".toList
  intersectTopRight := "+".toList
  intersectHeaderLeft := "+".toList
  intersectHeaderMid := "+".toList
  intersectHeaderRight := "+".toList
  intersectRowLeft := "+".toList
  intersectRowMid := "+".toList
  intersectRowRight := "+".toList
  intersectBottomLeft := "+".toList
  intersectBottomMid := "+".toList
  intersectBottomRight := "+".toList

/-- One column, one row holding the single cell `"a"`. -/
def exC1 : BTTable :=
  { btBase with
    rows := [[some ("a".toList)]]
    rowHeaders := [none]
    headers := [some ("c".toList)]
    alignments := [BTAlign.center]
    widths := [0]
    padLeft := [1]
    padRight := [1]
    ncol := 1 }

/-- Two columns of small content, used to witness the allocator theorems. -/
def exC2 : BTTable :=
  { btBase with
    rows := [[some ("hello".toList), some ("x".toList)]]
    rowHeaders := [none]
    headers := [some ("h1".toList), none]
    alignments := [BTAlign.center, BTAlign.center]
    widths := [0, 0]
    padLeft := [1, 1]
    padRight := [1, 1]
    ncol := 2 }

/-- Three borderless zero-padding columns of natural widths 1, 6 and 6 under a
maxwidth of 10: both wide columns shrink to the same width 4, the dict
collapses them to one entry, and the floor share of the redistribution lands
on position 0 — the flagged first column. -/
def exC3 : BTTable :=
  { btBase with
    rows := [[some ("x".toList), some ("aaaaaa".toList), some ("bbbbbb".toList)]]
    rowHeaders := [none]
    headers := [none, none, none]
    alignments := [BTAlign.center, BTAlign.center, BTAlign.center]
    widths := [0, 0, 0]
    padLeft := [0, 0, 0]
    padRight := [0, 0, 0]
    ncol := 3
    maxwidth := 10
    leftBorderChar := []
    rightBorderChar := []
    columnSeparatorChar := [] }

/-- A wide single column under a small maxwidth, witnessing the budget bound. -/
def exC4 : BTTable :=
  { btBase with
    rows := [[some ("aaaaaaaaaaaaaaaaaaaaaaaaaaaaaa".toList)]]
    rowHeaders := [none]
    headers := [some ("h".toList)]
    alignments := [BTAlign.center]
    widths := [0]
    padLeft := [1]
    padRight := [1]
    ncol := 1
    maxwidth := 10 }

/-- One column of printable width 5 (no padding), for the ellipsis clamp. -/
def exC5 : BTTable :=
  { btBase with
    rows := []
    rowHeaders := []
    headers := [none]
    alignments := [BTAlign.center]
    widths := [5]
    padLeft := [0]
    padRight := [0]
    ncol := 1 }

/-- A single remaining column over two rows. -/
def exC6 : BTTable :=
  { btBase with
    rows := [[some ("a".toList)], [some ("b".toList)]]
    rowHeaders := [none, none]
    headers := [some ("h".toList)]
    alignments := [BTAlign.center]
    widths := [3]
    padLeft := [1]
    padRight := [1]
    ncol := 1 }

/-- One column of width 3 with visible borders, for the horizontal line. -/
def exC8 : BTTable :=
  { btBase with
    headers := [none]
    alignments := [BTAlign.center]
    widths := [3]
    padLeft := [1]
    padRight := [1]
    ncol := 1 }

/-- A one-column table with one headed row, for the append claim. -/
def exC9 : BTTable :=
  { btBase with
    rows := [[some ("a".toList)]]
    rowHeaders := [some ("r0".toList)]
    headers := [some ("h".toList)]
    alignments := [BTAlign.center]
    widths := [0]
    padLeft := [1]
    padRight := [1]
    ncol := 1 }

/-- A zero-row table that still has columns, metadata, borders and headers. -/
def exC10 : BTTable :=
  { btBase with
    rows := []
    rowHeaders := []
    headers := [some ("h1".toList), some ("h2".toList)]
    alignments := [BTAlign.center, BTAlign.left]
    widths := [7, 9]
    padLeft := [1, 2]
    padRight := [1, 2]
    ncol := 2 }

theorem listInsertAt_length (n : Nat) (a : α) (l : List α) :
    (listInsertAt n a l).length = l.length + 1 := by
  induction l generalizing n with
  | nil => cases n <;> rfl
  | cons x xs ih =>
    cases n with
    | zero => rfl
    | succ m => simp [listInsertAt, ih]

theorem listInsertAt_self (l : List α) (a : α) :
    listInsertAt l.length a l = l ++ [a] := by
  induction l with
  | nil => rfl
  | cons x xs ih => simp [listInsertAt, ih]

theorem pyListInsert_append (l : List α) (a : α) :
    pyListInsert l (l.length : Int) a = l ++ [a] := by
  have hpos : pyInsertPos l.length (l.length : Int) = l.length := by
    simp [pyInsertPos]
  rw [pyListInsert, hpos, listInsertAt_self]

/-- C1: the claim asserts that inserting a too-short column rolls every
mutation back, leaving rows and metadata untouched.  On a one-column,
one-row table, inserting an empty column raises the length-mismatch error but
the rollback loop (`for j in range(column_length, -1, -1)`) pops a cell from
row 0, which the insertion loop never touched: the table is left with an
empty row. -/
theorem c1_insert_rollback_overpops :
    (btColumnsInsert exC1 0 [] (some ("h".toList))).1 = some BTError.valueError ∧
    (btColumnsInsert exC1 0 [] (some ("h".toList))).2.rows = [[]] ∧
    exC1.rows = [[some ("a".toList)]] ∧
    (btColumnsInsert exC1 0 [] (some ("h".toList))).2.rows ≠ exC1.rows := by
  refine ⟨by decide, by decide, by decide, by decide⟩

/-- C6: a column delete or pop that drains the last remaining column also
clears every row and row header in the same operation. -/
theorem c6_last_column_drains_rows (t : BTTable) (hwf : BTWF t)
    (h1 : t.ncol = 1) :
    (btColumnsDelInt t 0).rows = [] ∧ (btColumnsDelInt t 0).rowHeaders = [] ∧
    (btColumnsPop t 0).2.rows = [] ∧ (btColumnsPop t 0).2.rowHeaders = [] := by
  have hh : t.headers.length = 1 := by rw [hwf.1, h1]
  obtain ⟨a, ha⟩ := List.length_eq_one.mp hh
  have hdel : pyDelAt t.headers 0 = [] := by
    rw [ha]; rfl
  refine ⟨?_, ?_, ?_, ?_⟩ <;>
    simp [btColumnsDelInt, btColumnsPop, hdel, h1]

theorem c6_witness :
    (btColumnsDelInt exC6 0).rows = [] ∧ (btColumnsDelInt exC6 0).rowHeaders = [] ∧
    (btColumnsPop exC6 0).2.rows = [] ∧ (btColumnsPop exC6 0).2.rowHeaders = [] :=
  c6_last_column_drains_rows exC6 (by decide) (by decide)

/-- C7: popping a row from a table with no rows, or a column from a table with
no columns, raises the index error and returns with the state untouched. -/
theorem c7_pop_empty_raises (t : BTTable) (i : Int) :
    (t.rows = [] → btRowsPop t i = (Except.error BTError.indexError, t)) ∧
    (t.ncol = 0 → btColumnsPop t i = (Except.error BTError.indexError, t)) := by
  constructor
  · intro h; simp [btRowsPop, h]
  · intro h; simp [btColumnsPop, h]

theorem c7_witness :
    btRowsPop btBase 0 = (Except.error BTError.indexError, btBase) ∧
    btColumnsPop btBase 0 = (Except.error BTError.indexError, btBase) :=
  ⟨(c7_pop_empty_raises btBase 0).1 rfl, (c7_pop_empty_raises btBase 0).2 rfl⟩

/-- C9: `rows.append(row, header)` delegates to `insert(len(self), row)`
without forwarding the header, so whatever header argument is supplied, the
appended row is stored with header `None` (and the row count grows by one). -/
theorem c9_append_drops_header (t : BTTable) (row : List (Option Str))
    (h : Option Str) (hwf : BTWF t) :
    (btRowsAppend t row h).rowHeaders = t.rowHeaders ++ [none] ∧
    (btRowsAppend t row h).rows.length = t.rows.length + 1 := by
  have hrh : t.rowHeaders.length = t.rows.length := hwf.2.2.2.2.2.2
  have hrh1 : (if t.ncol = 0 then btColumnsResetState t row.length else t).rowHeaders
      = t.rowHeaders := by
    split <;> rfl
  have hrl1 : (if t.ncol = 0 then btColumnsResetState t row.length else t).rows.length
      = t.rows.length := by
    split
    · simp [btColumnsResetState]
    · rfl
  constructor
  · show pyListInsert
      (if t.ncol = 0 then btColumnsResetState t row.length else t).rowHeaders
      ((t.rows.length : Int)) none = t.rowHeaders ++ [none]
    rw [hrh1, ← hrh]
    exact pyListInsert_append _ none
  · show (pyListInsert
      (if t.ncol = 0 then btColumnsResetState t row.length else t).rows
      ((t.rows.length : Int)) row).length = t.rows.length + 1
    rw [pyListInsert, listInsertAt_length, hrl1]

theorem c9_witness :
    (btRowsAppend exC9 [some ("b".toList)] (some ("HDR".toList))).rowHeaders
      = exC9.rowHeaders ++ [none] ∧
    (btRowsAppend exC9 [some ("b".toList)] (some ("HDR".toList))).rows.length
      = exC9.rows.length + 1 :=
  c9_append_drops_header exC9 [some ("b".toList)] (some ("HDR".toList)) (by decide)

/-- C10: a table with zero rows renders as the empty string no matter the
borders, headers, style glyphs or column metadata, and `get_string` returns
before the serial column, the width calculation or any rendering touches the
state. -/
theorem c10_empty_table_empty_string (t : BTTable) (recalc : Bool)
    (h : t.rows = []) : btGetString t recalc = ([], t) := by
  simp [btGetString, h]

theorem c10_witness : btGetString exC10 true = ([], exC10) :=
  c10_empty_table_empty_string exC10 true rfl

theorem calc_rows_eq (t : BTTable) : (calculateWidth t).rows = t.rows := rfl

theorem calc_ncol_eq (t : BTTable) : (calculateWidth t).ncol = t.ncol := rfl

theorem btNaturalWidths_calc (t : BTTable) :
    btNaturalWidths (calculateWidth t) = btNaturalWidths t := rfl

theorem btPadWidths_calc (t : BTTable) :
    btPadWidths (calculateWidth t) = btPadWidths t := rfl

/-- With at least one column, the `offset` of the allocator reduces to the
separator/border charge plus the pad sum: the current column widths cancel. -/
theorem cwOffset_eq_of_ncol_pos (t : BTTable) (h : t.ncol ≠ 0) :
    cwOffset t = (t.ncol - 1) * termwidth t.columnSeparatorChar
      + termwidth t.leftBorderChar + termwidth t.rightBorderChar
      + (btPadWidths t).sum := by
  simp only [cwOffset, btWidth, if_neg h]
  omega

theorem cwOffset_eq_of_ncol_zero (t : BTTable) (h : t.ncol = 0) :
    cwOffset t = (btPadWidths t).sum := by
  simp [cwOffset, btWidth, h]

/-- The allocator's `offset` does not depend on the stored widths, so
recalculating leaves it unchanged. -/
theorem cwOffset_calc (t : BTTable) :
    cwOffset (calculateWidth t) = cwOffset t := by
  by_cases h : t.ncol = 0
  · rw [cwOffset_eq_of_ncol_zero (calculateWidth t) (by rw [calc_ncol_eq]; exact h),
      cwOffset_eq_of_ncol_zero t h, btPadWidths_calc]
  · rw [cwOffset_eq_of_ncol_pos (calculateWidth t) (by rw [calc_ncol_eq]; exact h),
      cwOffset_eq_of_ncol_pos t h, btPadWidths_calc]
    rfl

theorem cwMaxwidth_calc (t : BTTable) :
    cwMaxwidth (calculateWidth t) = cwMaxwidth t := by
  show max (cwMaxwidth t) (cwOffset (calculateWidth t) + (calculateWidth t).ncol)
      = cwMaxwidth t
  rw [cwOffset_calc, calc_ncol_eq]
  exact Nat.max_eq_left (Nat.le_max_right _ _)

theorem cwDesired_calc (t : BTTable) :
    cwDesired (calculateWidth t) = cwDesired t := by
  unfold cwDesired
  rw [cwMaxwidth_calc, cwOffset_calc]

theorem cwFair_calc (t : BTTable) : cwFair (calculateWidth t) = cwFair t := by
  unfold cwFair
  rw [cwDesired_calc, calc_ncol_eq]

theorem cwTemp_calc (t : BTTable) : cwTemp (calculateWidth t) = cwTemp t := by
  unfold cwTemp
  rw [cwFair_calc, btNaturalWidths_calc]

theorem cwAvail_calc (t : BTTable) : cwAvail (calculateWidth t) = cwAvail t := by
  unfold cwAvail
  rw [cwDesired_calc, cwTemp_calc]

theorem cwActual_calc (t : BTTable) : cwActual (calculateWidth t) = cwActual t := by
  unfold cwActual
  rw [cwTemp_calc, btNaturalWidths_calc]

theorem cwStage2_calc (t : BTTable) : cwStage2 (calculateWidth t) = cwStage2 t := by
  unfold cwStage2
  rw [btNaturalWidths_calc, cwFair_calc, cwAvail_calc, cwActual_calc]

theorem cwShDict_calc (t : BTTable) : cwShDict (calculateWidth t) = cwShDict t := by
  unfold cwShDict
  rw [btNaturalWidths_calc, cwFair_calc, cwAvail_calc, cwActual_calc]

theorem cwStage3_calc (t : BTTable) : cwStage3 (calculateWidth t) = cwStage3 t := by
  unfold cwStage3
  rw [cwDesired_calc, cwShDict_calc, cwStage2_calc]

/-- C2: the automatic width calculation is idempotent — running it a second
time on the unchanged content, padding, separators/borders and budget
reproduces exactly the same per-column widths. -/
theorem c2_allocator_idempotent (t : BTTable) :
    (calculateWidth (calculateWidth t)).widths = (calculateWidth t).widths := by
  show List.zipWith (fun a b => a + b) (cwStage3 (calculateWidth t))
      (btPadWidths (calculateWidth t)) = (calculateWidth t).widths
  rw [cwStage3_calc, btPadWidths_calc]
  rfl

theorem strRepeat_length (s : Str) (k : Nat) :
    (strRepeat s k).length = k * s.length := by
  induction k with
  | zero => simp [strRepeat]
  | succ n ih =>
    show (s ++ strRepeat s n).length = (n + 1) * s.length
    rw [List.length_append, ih]; ring

theorem mem_strRepeat {c : Char} (s : Str) (k : Nat) (h : c ∈ strRepeat s k) :
    c ∈ s := by
  induction k with
  | zero => cases h
  | succ n ih =>
    rcases List.mem_append.mp h with h2 | h2
    · exact h2
    · exact ih h2

theorem foldl_set_length (xs : List Nat) (f : Str → Nat → Str)
    (hf : ∀ l i, (f l i).length = l.length) :
    ∀ l : Str, (xs.foldl f l).length = l.length := by
  induction xs with
  | nil => intro l; rfl
  | cons x xs ih => intro l; rw [List.foldl_cons, ih, hf]

theorem foldl_pair_fst_length {g : Str × Nat → Nat → Str × Nat}
    (hg : ∀ p i, ((g p i).1).length = p.1.length) (xs : List Nat) :
    ∀ p, ((xs.foldl g p).1).length = p.1.length := by
  induction xs with
  | nil => intro p; rfl
  | cons x xs ih => intro p; rw [List.foldl_cons, ih, hg]

theorem hlBase_length (t : BTTable) (ch : Str) :
    (hlBase t ch).length = btWidth t := by
  unfold hlBase
  split
  · simp
  · rename_i h0
    have hpos : 0 < ch.length := Nat.pos_of_ne_zero h0
    simp only [termwidth]
    rw [List.length_take, strRepeat_length]
    apply Nat.min_eq_left
    have hdm : btWidth t / ch.length * ch.length + btWidth t % ch.length
        = btWidth t := Nat.div_add_mod' (btWidth t) ch.length
    have hlt : btWidth t % ch.length < ch.length := Nat.mod_lt _ hpos
    have hexp : (btWidth t / ch.length + 1) * ch.length
        = btWidth t / ch.length * ch.length + ch.length := by ring
    rw [hexp]
    omega

theorem hlLeft_length (t : BTTable) (il : Str) (line : Str) :
    (hlLeft t il line).length = line.length := by
  unfold hlLeft
  split
  · exact foldl_set_length _ _ (fun l i => List.length_set l i _) line
  · rfl

theorem hlRight_length (t : BTTable) (ir : Str) (line : Str) :
    (hlRight t ir line).length = line.length := by
  unfold hlRight
  split
  · exact foldl_set_length _ _ (fun l i => List.length_set l _ _) line
  · rfl

theorem hlMid_length (t : BTTable) (im : Str) (line : Str) :
    (hlMid t im line).length = line.length := by
  unfold hlMid
  split
  · exact foldl_pair_fst_length
      (fun p i => foldl_set_length _ _ (fun l j => List.length_set l _ _) p.1) _ _
  · rfl

theorem hlBase_blank (t : BTTable) (ch : Str) (hsp : pyIsSpace ch = true) :
    ∀ c ∈ hlBase t ch, c.isWhitespace = true := by
  unfold pyIsSpace at hsp
  rw [Bool.and_eq_true] at hsp
  obtain ⟨h1, h2⟩ := hsp
  have hne : ch.length ≠ 0 := by
    intro hc
    rw [List.length_eq_zero.mp hc] at h1
    exact absurd h1 (by decide)
  have hall : ∀ c ∈ ch, c.isWhitespace = true := by
    intro c hc
    exact List.all_eq_true.mp h2 c hc
  unfold hlBase
  rw [if_neg hne]
  intro c hc
  exact hall c (mem_strRepeat ch _ (List.take_subset _ _ hc))

/-- C8 (amended): composing a horizontal line always yields a string of
exactly the table's total width; with a *blank, non-empty* fill character the
whole line consists of whitespace with no intersection glyph written.  (The
claim's "or empty" case is refuted separately: the empty string is not
`isspace()` in Python, so the glyph stamping still runs.) -/
theorem c8_horizontal_line_amended :
    (∀ (t : BTTable) (ch il im ir : Str),
      (getHorizontalLine t ch il im ir).length = btWidth t) ∧
    (∀ (t : BTTable) (ch il im ir : Str), pyIsSpace ch = true →
      ∀ c ∈ getHorizontalLine t ch il im ir, c.isWhitespace = true) := by
  constructor
  · intro t ch il im ir
    simp only [getHorizontalLine]
    split
    · rename_i h0
      rw [← hlBase_length t ch, h0]; rfl
    · split
      · exact hlBase_length t ch
      · rw [hlMid_length, hlRight_length, hlLeft_length, hlBase_length]
  · intro t ch il im ir hsp c hc
    simp only [getHorizontalLine] at hc
    rcases Decidable.em ((hlBase t ch).length = 0) with h0 | h0
    · rw [if_pos h0] at hc; cases hc
    · rw [if_neg h0, if_pos hsp] at hc
      exact hlBase_blank t ch hsp c hc

theorem c8_witness :
    (getHorizontalLine exC8 (" ".toList) ("+".toList) ("+".toList)
      ("+".toList)).length = btWidth exC8 ∧
    (∀ c ∈ getHorizontalLine exC8 (" ".toList) ("+".toList) ("+".toList)
      ("+".toList), c.isWhitespace = true) :=
  ⟨c8_horizontal_line_amended.1 exC8 _ _ _ _,
   c8_horizontal_line_amended.2 exC8 (" ".toList) ("+".toList) ("+".toList)
     ("+".toList) (by decide)⟩

/-- C8 (counterexample): the claim says a blank *or empty* fill character
yields an all-blank line with no intersection glyph written.  With the empty
fill character on a bordered one-column table, the source still stamps the
intersection glyphs (Python's `"".isspace()` is False), producing `+   +`. -/
theorem c8_empty_fill_draws_glyphs :
    getHorizontalLine exC8 [] ("+".toList) ("+".toList) ("+".toList)
      = "+   +".toList ∧
    ¬ (∀ c ∈ getHorizontalLine exC8 [] ("+".toList) ("+".toList) ("+".toList),
        c.isWhitespace = true) := by
  refine ⟨by decide, by decide⟩

theorem getD_mem (l : List α) (i : Nat) (d : α) (h : i < l.length) :
    l.getD i d ∈ l := by
  induction l generalizing i with
  | nil => cases h
  | cons x xs ih =>
    cases i with
    | zero => exact List.mem_cons_self _ _
    | succ j => exact List.mem_cons_of_mem _ (ih j (by simpa using h))

theorem foldl_if_none (cond : Nat → Bool) (xs : List Nat)
    (h : ∀ i ∈ xs, cond i = false) :
    xs.foldl (fun acc i => if cond i then some i else acc)
      (none : Option Nat) = none := by
  induction xs with
  | nil => rfl
  | cons x xs ih =>
    rw [List.foldl_cons, if_neg]
    · exact ih (fun i hi => h i (List.mem_cons_of_mem _ hi))
    · simp [h x (List.mem_cons_self _ _)]

/-- A string without whitespace admits no break point: the wrapper falls back
to the hard mid-token break. -/
theorem lastBreak_none (s : Str) (w : Nat)
    (hws : ∀ c ∈ s, c.isWhitespace = false) : lastBreak s w = none := by
  unfold lastBreak
  apply foldl_if_none
  intro i hi
  have hilt : i < s.length := by
    have := List.mem_range.mp hi
    omega
  exact hws _ (getD_mem s i 'a' hilt)

/-- One unfolding of the wrapper when no fuel shortage, no fit and no break
point: the head line is the hard-broken first chunk. -/
theorem wrapGo_head_hard (wpred : Nat) (s : Str) (hlen : wpred + 1 < s.length)
    (hnb : lastBreak s (wpred + 1) = none) :
    (wrapGo wpred s).headD [] = s.take (wpred + 1) := by
  show (wrapFuel s.length wpred s).headD [] = s.take (wpred + 1)
  cases hs : s.length with
  | zero => omega
  | succ m =>
    rw [hs] at hlen
    simp only [wrapFuel, if_neg (by omega : ¬ s.length ≤ wpred + 1), hnb]
    rfl

/-- The first wrapped line of a whitespace-free string that is longer than a
positive width `k` is exactly its first `k` characters. -/
theorem textwrap_head_noWS (s : Str) (k : Nat)
    (hws : ∀ c ∈ s, c.isWhitespace = false) (hk : k ≠ 0)
    (hlen : k < s.length) :
    (textwrap s k).headD [] = s.take k := by
  unfold textwrap
  rw [if_neg hk, if_neg (by omega : ¬ s.length = 0)]
  have hk1 : k - 1 + 1 = k := by omega
  have := wrapGo_head_hard (k - 1) s (by omega)
    (by rw [hk1]; exact lastBreak_none s k hws)
  rw [hk1] at this
  exact this

/-- C5 (amended): under the ellipsis policy, a whitespace-free cell string
whose display width exceeds the printable width `w` is clamped, for `w ≥ 4`,
to its first `w - 3` characters followed by `"..."` — exactly `w` display
columns ending in the marker; and for `0 ≤ w < 3` the result is the marker
itself right-truncated to `w` characters.  (A string containing whitespace can
come out narrower than `w`, because the wrapper prefers the whitespace break;
see the counterexample.) -/
theorem c5_ellipsis_clamp_amended :
    (∀ (t : BTTable) (i : Nat) (s : Str),
      t.padLeft.getD i 0 + t.padRight.getD i 0 + 4 ≤ t.widths.getD i 0 →
      (∀ c ∈ s, c.isWhitespace = false) →
      t.widths.getD i 0 - t.padLeft.getD i 0 - t.padRight.getD i 0 < s.length →
      clampString t s i ("...".toList)
        = s.take (t.widths.getD i 0 - t.padLeft.getD i 0
            - t.padRight.getD i 0 - 3) ++ "...".toList ∧
      termwidth (clampString t s i ("...".toList))
        = t.widths.getD i 0 - t.padLeft.getD i 0 - t.padRight.getD i 0) ∧
    (∀ (t : BTTable) (i : Nat) (s : Str),
      t.padLeft.getD i 0 + t.padRight.getD i 0 ≤ t.widths.getD i 0 →
      t.widths.getD i 0 ≤ t.padLeft.getD i 0 + t.padRight.getD i 0 + 2 →
      t.widths.getD i 0 - t.padLeft.getD i 0 - t.padRight.getD i 0 < s.length →
      clampString t s i ("...".toList)
        = ("...".toList).take
            (t.widths.getD i 0 - t.padLeft.getD i 0 - t.padRight.getD i 0)) := by
  have hdots : ("...".toList).length = 3 := rfl
  constructor
  · intro t i s h4 hws hlen
    simp only [clampString, termwidth, textwrapI, hdots]
    rw [if_neg (by omega), if_pos (by omega)]
    have harg : ((t.widths.getD i 0 : Int) - (t.padLeft.getD i 0 : Int)
        - (t.padRight.getD i 0 : Int) - ((3 : Nat) : Int)).toNat
        = t.widths.getD i 0 - t.padLeft.getD i 0 - t.padRight.getD i 0 - 3 := by
      omega
    rw [harg, textwrap_head_noWS s _ hws (by omega) (by omega)]
    constructor
    · rfl
    · rw [List.length_append, List.length_take, hdots]
      omega
  · intro t i s hge hle hlen
    simp only [clampString, termwidth, hdots]
    rw [if_neg (by omega), if_neg (by omega)]
    simp only [pySliceTo]
    rw [if_neg (by omega)]
    congr 1
    omega

theorem c5_witness :
    (clampString exC5 ("abcdefg".toList) 0 ("...".toList)
      = ("abcdefg".toList).take 2 ++ "...".toList ∧
    termwidth (clampString exC5 ("abcdefg".toList) 0 ("...".toList)) = 5) ∧
    clampString { exC5 with widths := [2] } ("abcdefg".toList) 0 ("...".toList)
      = ("...".toList).take 2 :=
  ⟨c5_ellipsis_clamp_amended.1 exC5 0 ("abcdefg".toList) (by decide)
      (by decide) (by decide),
   c5_ellipsis_clamp_amended.2 { exC5 with widths := [2] } 0
     ("abcdefg".toList) (by decide) (by decide) (by decide)⟩

/-- C5 (counterexample): the claim promises that for printable width `w ≥ 3`
the ellipsis clamp of an over-wide string is *exactly* `w` display columns.
On printable width 5 with the 7-column string `"a bcdef"`, the wrapper breaks
at the whitespace and the clamp returns `"a..."` — 4 columns, not 5. -/
theorem c5_whitespace_narrower_than_w :
    clampString exC5 ("a bcdef".toList) 0 ("...".toList) = "a...".toList ∧
    exC5.widths.getD 0 0 - exC5.padLeft.getD 0 0 - exC5.padRight.getD 0 0 = 5 ∧
    5 < termwidth ("a bcdef".toList) ∧
    termwidth (clampString exC5 ("a bcdef".toList) 0 ("...".toList)) ≠ 5 := by
  refine ⟨by decide, by decide, by decide, by decide⟩

theorem div_add_div_le (a b c : Nat) : a / c + b / c ≤ (a + b) / c := by
  rcases Nat.eq_zero_or_pos c with hc | hc
  · simp [hc]
  · rw [Nat.le_div_iff_mul_le hc, Nat.add_mul]
    exact Nat.add_le_add (Nat.div_mul_le_self a c) (Nat.div_mul_le_self b c)

theorem sum_map_div_le (l : List Nat) (g : Nat → Nat) (c : Nat) :
    (l.map (fun x => g x / c)).sum ≤ (l.map g).sum / c := by
  induction l with
  | nil => simp
  | cons x xs ih =>
    simp only [List.map_cons, List.sum_cons]
    calc g x / c + (xs.map (fun x => g x / c)).sum
        ≤ g x / c + (xs.map g).sum / c := Nat.add_le_add_left ih _
      _ ≤ (g x + (xs.map g).sum) / c := div_add_div_le _ _ _

theorem sum_map_add (l : List Nat) (f g : Nat → Nat) :
    (l.map (fun x => f x + g x)).sum = (l.map f).sum + (l.map g).sum := by
  induction l with
  | nil => rfl
  | cons x xs ih => simp only [List.map_cons, List.sum_cons, ih]; omega

theorem sum_map_mul_right (l : List Nat) (c : Nat) :
    (l.map (fun x => x * c)).sum = l.sum * c := by
  induction l with
  | nil => simp
  | cons x xs ih => simp only [List.map_cons, List.sum_cons, ih]; ring

theorem sum_map_mul_right' (l : List Nat) (f : Nat → Nat) (c : Nat) :
    (l.map (fun x => f x * c)).sum = (l.map f).sum * c := by
  induction l with
  | nil => simp
  | cons x xs ih => simp only [List.map_cons, List.sum_cons, ih]; ring

theorem sum_map_sub_of_le (l : List Nat) (f g : Nat → Nat)
    (h : ∀ x ∈ l, g x ≤ f x) :
    (l.map (fun x => f x - g x)).sum = (l.map f).sum - (l.map g).sum := by
  induction l with
  | nil => rfl
  | cons x xs ih =>
    have hx := h x (List.mem_cons_self _ _)
    have hsle : (xs.map g).sum ≤ (xs.map f).sum :=
      List.sum_le_sum (fun i hi => h i (List.mem_cons_of_mem _ hi))
    simp only [List.map_cons, List.sum_cons,
      ih (fun i hi => h i (List.mem_cons_of_mem _ hi))]
    omega

theorem sum_set_getD_add_le (l : List Nat) (i x : Nat) :
    (l.set i (l.getD i 0 + x)).sum ≤ l.sum + x := by
  induction l generalizing i with
  | nil => simp
  | cons a as ih =>
    cases i with
    | zero => simp [List.getD]; omega
    | succ j =>
      simp only [List.set, List.sum_cons]
      have := ih j
      have hg : (a :: as).getD (j + 1) 0 = as.getD j 0 := rfl
      rw [hg]
      omega

theorem sum_set_getD_add (l : List Nat) (i x : Nat) (h : i < l.length) :
    (l.set i (l.getD i 0 + x)).sum = l.sum + x := by
  induction l generalizing i with
  | nil => cases h
  | cons a as ih =>
    cases i with
    | zero => simp [List.getD]; omega
    | succ j =>
      simp only [List.set, List.sum_cons]
      have := ih j (by simpa using h)
      have hg : (a :: as).getD (j + 1) 0 = as.getD j 0 := rfl
      rw [hg]
      omega

theorem one_le_sum_of_ne_nil (l : List Nat) (hne : l ≠ [])
    (h : ∀ x ∈ l, 1 ≤ x) : 1 ≤ l.sum := by
  cases l with
  | nil => exact absurd rfl hne
  | cons x xs =>
    have := h x (List.mem_cons_self _ _)
    simp only [List.sum_cons]
    omega

theorem mem_dictInsert (d : List (Nat × Nat)) (k v : Nat) (p : Nat × Nat)
    (h : p ∈ dictInsert d k v) : p = (k, v) ∨ p ∈ d := by
  induction d with
  | nil => simpa [dictInsert] using h
  | cons q rest ih =>
    by_cases hq : q.1 = k
    · rw [dictInsert, if_pos hq] at h
      rcases List.mem_cons.mp h with h2 | h2
      · exact Or.inl h2
      · exact Or.inr (List.mem_cons_of_mem _ h2)
    · rw [dictInsert, if_neg hq] at h
      rcases List.mem_cons.mp h with h2 | h2
      · exact Or.inr (h2 ▸ List.mem_cons_self _ _)
      · rcases ih h2 with h3 | h3
        · exact Or.inl h3
        · exact Or.inr (List.mem_cons_of_mem _ h3)

theorem dictLookupD_mem (d : List (Nat × Nat)) (k dflt : Nat)
    (h : k ∈ d.map Prod.fst) : (k, dictLookupD d k dflt) ∈ d := by
  induction d with
  | nil => cases h
  | cons q rest ih =>
    by_cases hq : q.1 = k
    · rw [dictLookupD, if_pos hq]
      have hqk : q = (k, q.2) := by
        cases q; simp only at hq; rw [hq]
      rw [← hqk]
      exact List.mem_cons_self _ _
    · rw [dictLookupD, if_neg hq]
      have h2 : k ∈ rest.map Prod.fst := by
        rcases List.mem_map.mp h with ⟨p, hp, hpk⟩
        rcases List.mem_cons.mp hp with h3 | h3
        · exact absurd (h3 ▸ hpk) hq
        · exact List.mem_map.mpr ⟨p, h3, hpk⟩
      exact List.mem_cons_of_mem _ (ih h2)

theorem enumFrom_fst_lt (l : List α) (n : Nat) (p : Nat × α)
    (h : p ∈ l.enumFrom n) : p.1 < n + l.length := by
  induction l generalizing n with
  | nil => cases h
  | cons x xs ih =>
    rcases List.mem_cons.mp h with h2 | h2
    · rw [h2]; simp
    · have := ih (n + 1) h2
      simp only [List.length_cons]
      omega

theorem btNaturalWidths_length (t : BTTable) :
    (btNaturalWidths t).length = t.headers.length := by
  simp [btNaturalWidths]

theorem cwDesired_ge_ncol (t : BTTable) : t.ncol ≤ cwDesired t := by
  have h := Nat.le_max_right t.maxwidth (cwOffset t + t.ncol)
  unfold cwDesired cwMaxwidth
  omega

theorem cwFair_pos (t : BTTable) (h : t.ncol ≠ 0) : 1 ≤ cwFair t := by
  unfold cwFair
  rw [Nat.le_div_iff_mul_le (Nat.pos_of_ne_zero h), Nat.one_mul]
  exact cwDesired_ge_ncol t

/-- `temp_sum` never exceeds `desired_sum`: every summand is at most the fair
share, and `n * fairShare ≤ desired_sum`. -/
theorem cwTemp_le_desired (t : BTTable)
    (hlen : (btNaturalWidths t).length = t.ncol) : cwTemp t ≤ cwDesired t := by
  rcases Nat.eq_zero_or_pos t.ncol with h0 | hpos
  · have : btNaturalWidths t = [] := List.length_eq_zero.mp (by rw [hlen, h0])
    rw [cwTemp, this]
    simp
  · have hfair : 1 ≤ cwFair t := cwFair_pos t (Nat.pos_iff_ne_zero.mp hpos)
    have h1 : cwTemp t ≤ (btNaturalWidths t).length * cwFair t := by
      have := List.sum_le_card_nsmul
        ((btNaturalWidths t).map (fun w => if w ≤ cwFair t then w else 1))
        (cwFair t) ?_
      · simpa [smul_eq_mul] using this
      · intro x hx
        rcases List.mem_map.mp hx with ⟨w, _, hw⟩
        by_cases hc : w ≤ cwFair t
        · rw [← hw, if_pos hc]; exact hc
        · rw [← hw, if_neg hc]; exact hfair
    have h2 : t.ncol * cwFair t ≤ cwDesired t := by
      unfold cwFair
      rw [Nat.mul_comm]
      exact Nat.div_mul_le_self _ _
    rw [hlen] at h1
    omega

theorem cwTemp_le_sum (t : BTTable) : cwTemp t ≤ (btNaturalWidths t).sum := by
  unfold cwTemp
  calc ((btNaturalWidths t).map (fun w => if w ≤ cwFair t then w else 1)).sum
      ≤ ((btNaturalWidths t).map (fun w => w)).sum := by
        apply List.sum_le_sum
        intro w _
        by_cases hc : w ≤ cwFair t
        · rw [if_pos hc]
        · rw [if_neg hc]; omega
    _ = (btNaturalWidths t).sum := by rw [List.map_id']

/-- The widths after the shrink step sum to at most `desired_sum`. -/
theorem cwStage2_sum_le (t : BTTable)
    (hlen : (btNaturalWidths t).length = t.ncol) :
    (cwStage2 t).sum ≤ cwDesired t := by
  have hpoint : ∀ w ∈ btNaturalWidths t,
      cwShrunkWidth (cwFair t) (cwAvail t) (cwActual t) w ≤
        (if w ≤ cwFair t then w else 1)
          + (if w ≤ cwFair t then 0 else (w - 1) * cwAvail t / cwActual t) := by
    intro w _
    unfold cwShrunkWidth
    by_cases hc : w ≤ cwFair t
    · rw [if_pos hc, if_pos hc, if_pos hc]; omega
    · rw [if_neg hc, if_neg hc, if_neg hc]
      by_cases hs : 1 + (w - 1) * cwAvail t / cwActual t < w
      · rw [if_pos hs]
      · rw [if_neg hs]; omega
  have h1 : (cwStage2 t).sum ≤ cwTemp t
      + ((btNaturalWidths t).map
          (fun w => if w ≤ cwFair t then 0 else (w - 1) * cwAvail t / cwActual t)).sum := by
    unfold cwStage2 cwTemp
    rw [← sum_map_add]
    exact List.sum_le_sum hpoint
  have h2 : ((btNaturalWidths t).map
      (fun w => if w ≤ cwFair t then 0 else (w - 1) * cwAvail t / cwActual t)).sum
      ≤ cwAvail t := by
    have hrw : ((btNaturalWidths t).map
        (fun w => if w ≤ cwFair t then 0 else (w - 1) * cwAvail t / cwActual t))
        = ((btNaturalWidths t).map
          (fun w => (if w ≤ cwFair t then 0 else (w - 1) * cwAvail t) / cwActual t)) := by
      apply List.map_congr_left
      intro w _
      by_cases hc : w ≤ cwFair t
      · rw [if_pos hc, if_pos hc, Nat.zero_div]
      · rw [if_neg hc, if_neg hc]
    rw [hrw]
    calc ((btNaturalWidths t).map
        (fun w => (if w ≤ cwFair t then 0 else (w - 1) * cwAvail t) / cwActual t)).sum
        ≤ ((btNaturalWidths t).map
            (fun w => if w ≤ cwFair t then 0 else (w - 1) * cwAvail t)).sum
            / cwActual t :=
          sum_map_div_le _ _ _
      _ ≤ cwAvail t := by
          have hmul : ((btNaturalWidths t).map
              (fun w => if w ≤ cwFair t then 0 else (w - 1) * cwAvail t)).sum
              = cwActual t * cwAvail t := by
            have e1 : ((btNaturalWidths t).map
                (fun w => if w ≤ cwFair t then 0 else (w - 1) * cwAvail t))
                = ((btNaturalWidths t).map
                  (fun w => (if w ≤ cwFair t then 0 else w - 1) * cwAvail t)) := by
              apply List.map_congr_left
              intro w _
              by_cases hc : w ≤ cwFair t
              · rw [if_pos hc, if_pos hc, Nat.zero_mul]
              · rw [if_neg hc, if_neg hc]
            have e2 : ((btNaturalWidths t).map
                (fun w => if w ≤ cwFair t then 0 else w - 1)).sum = cwActual t := by
              have e3 : ((btNaturalWidths t).map
                  (fun w => if w ≤ cwFair t then 0 else w - 1))
                  = ((btNaturalWidths t).map
                    (fun w => w - (if w ≤ cwFair t then w else 1))) := by
                apply List.map_congr_left
                intro w _
                by_cases hc : w ≤ cwFair t
                · rw [if_pos hc, if_pos hc]; omega
                · rw [if_neg hc, if_neg hc]
              rw [e3, sum_map_sub_of_le]
              · rw [List.map_id']
                rfl
              · intro w _
                by_cases hc : w ≤ cwFair t
                · rw [if_pos hc]
                · rw [if_neg hc]; omega
            rw [e1, sum_map_mul_right', e2]
          rw [hmul]
          rcases Nat.eq_zero_or_pos (cwActual t) with ha | ha
          · simp [ha]
          · rw [Nat.mul_div_cancel_left _ ha]
  have h3 := cwTemp_le_desired t hlen
  have h4 : cwTemp t + cwAvail t = cwDesired t := by
    unfold cwAvail
    omega
  omega

theorem foldl_shdict_inv (fair avail actual : Nat) (P : Nat × Nat → Prop)
    (l : List (Nat × Nat)) :
    ∀ d : List (Nat × Nat), (∀ p ∈ d, P p) →
      (∀ q ∈ l, P (1 + (q.2 - 1) * avail / actual, q.1)) →
      ∀ p ∈ l.foldl (fun d q =>
        if q.2 ≤ fair then d
        else if 1 + (q.2 - 1) * avail / actual < q.2 then
          dictInsert d (1 + (q.2 - 1) * avail / actual) q.1
        else d) d, P p := by
  induction l with
  | nil => intro d hd _ p hp; exact hd p hp
  | cons q l ih =>
    intro d hd hl p hp
    rw [List.foldl_cons] at hp
    refine ih _ ?_ (fun r hr => hl r (List.mem_cons_of_mem _ hr)) p hp
    intro r hr
    by_cases h1 : q.2 ≤ fair
    · rw [if_pos h1] at hr; exact hd r hr
    · rw [if_neg h1] at hr
      by_cases h2 : 1 + (q.2 - 1) * avail / actual < q.2
      · rw [if_pos h2] at hr
        rcases mem_dictInsert _ _ _ _ hr with h3 | h3
        · rw [h3]; exact hl q (List.mem_cons_self _ _)
        · exact hd r h3
      · rw [if_neg h2] at hr; exact hd r hr

/-- Every entry of the shrunk-column dict has a key of at least 1 (shrunk
widths are at least the 1-character floor) and records a genuine column
position. -/
theorem cwShDict_mem (t : BTTable) (p : Nat × Nat) (hp : p ∈ cwShDict t) :
    1 ≤ p.1 ∧ p.2 < (btNaturalWidths t).length := by
  refine foldl_shdict_inv (cwFair t) (cwAvail t) (cwActual t)
    (fun p => 1 ≤ p.1 ∧ p.2 < (btNaturalWidths t).length)
    ((btNaturalWidths t).enum) [] (by intro r hr; cases hr) ?_ p hp
  intro q hq
  refine ⟨Nat.le_add_right 1 _, ?_⟩
  have h := enumFrom_fst_lt (btNaturalWidths t) 0 q (by simpa [List.enum] using hq)
  simpa using h

theorem redistLoop_length (desired extra actual2 : Nat) (sh : List (Nat × Nat))
    (lastIdx : Nat) :
    ∀ (rest : List Nat) (i : Nat) (ws : List Nat),
      (redistLoop desired extra actual2 sh lastIdx i ws rest).length
        = ws.length := by
  intro rest
  induction rest with
  | nil => intro i ws; rfl
  | cons w rest ih =>
    intro i ws
    simp only [redistLoop]
    rw [ih]
    by_cases hi : i = lastIdx
    · rw [if_pos hi]; simp [List.length_set]
    · rw [if_neg hi]; simp [List.length_set]

/-- Sum invariant of the redistribution loop: starting with widths that have
slack at least the remaining floor shares, the final iteration's residual
stamp makes the widths sum exactly `desired`. -/
theorem redistLoop_sum_eq (desired extra actual2 N : Nat)
    (sh : List (Nat × Nat)) (klen : Nat)
    (hvals : ∀ p ∈ sh, p.2 < N) :
    ∀ (rest : List Nat) (i : Nat) (ws : List Nat),
      ws.length = N →
      i + rest.length = klen →
      rest ≠ [] →
      (∀ w ∈ rest, w ∈ sh.map Prod.fst) →
      ws.sum + (rest.map (fun w => w * extra / actual2)).sum ≤ desired →
      (redistLoop desired extra actual2 sh (klen - 1) i ws rest).sum
        = desired := by
  intro rest
  induction rest with
  | nil => intro i ws _ _ hne _ _; exact absurd rfl hne
  | cons w rest ih =>
    intro i ws hlen hik hne hmem hsum
    simp only [redistLoop]
    have hws1len : (ws.set i (ws.getD i 0 + w * extra / actual2)).length = N := by
      rw [List.length_set, hlen]
    have hws1sum : (ws.set i (ws.getD i 0 + w * extra / actual2)).sum
        ≤ ws.sum + w * extra / actual2 := sum_set_getD_add_le _ _ _
    simp only [List.map_cons, List.sum_cons] at hsum
    cases rest with
    | nil =>
      have hi : i = klen - 1 := by
        simp only [List.length_cons, List.length_nil] at hik
        omega
      rw [if_pos hi]
      simp only [redistLoop]
      have hidx : dictLookupD sh w 0 < N := by
        have hk : w ∈ sh.map Prod.fst := hmem w (List.mem_cons_self _ _)
        exact hvals _ (dictLookupD_mem sh w 0 hk)
      have h1sum : (ws.set i (ws.getD i 0 + w * extra / actual2)).sum
          ≤ desired := by
        simp only [List.map_nil, List.sum_nil] at hsum
        omega
      rw [sum_set_getD_add _ _ _ (by rw [hws1len]; exact hidx)]
      omega
    | cons w2 rest2 =>
      have hi : i ≠ klen - 1 := by
        simp only [List.length_cons] at hik
        omega
      rw [if_neg hi]
      refine ih (i + 1) _ hws1len ?_ (by simp) ?_ ?_
      · simp only [List.length_cons] at hik ⊢
        omega
      · intro x hx
        exact hmem x (List.mem_cons_of_mem _ hx)
      · simp only [List.map_cons, List.sum_cons] at hsum ⊢
        omega

theorem cwStage2_length (t : BTTable) :
    (cwStage2 t).length = (btNaturalWidths t).length := by
  simp [cwStage2]

/-- When any column was shrunk, the redistribution makes the widths sum
exactly `desired_sum = effectiveMaxwidth - offset`. -/
theorem cwStage3_sum_eq (t : BTTable)
    (hlen : (btNaturalWidths t).length = t.ncol)
    (hsh : cwShDict t ≠ []) :
    (cwStage3 t).sum = cwDesired t := by
  have hB := cwStage2_sum_le t hlen
  have hkeys1 : ∀ w ∈ (cwShDict t).map Prod.fst, 1 ≤ w := by
    intro w hw
    rcases List.mem_map.mp hw with ⟨p, hp, hpw⟩
    exact hpw ▸ (cwShDict_mem t p hp).1
  simp only [cwStage3, cwRedistribute]
  rw [if_neg (by simpa using hsh)]
  by_cases hex : cwDesired t - (cwStage2 t).sum = 0
  · rw [if_pos hex]
    omega
  · rw [if_neg hex]
    have hperm := List.perm_insertionSort (fun a b => a ≤ b)
      ((cwShDict t).map Prod.fst)
    have hkslen : (List.insertionSort (fun a b => a ≤ b)
        ((cwShDict t).map Prod.fst)).length
        = ((cwShDict t).map Prod.fst).length := hperm.length_eq
    have hksne : List.insertionSort (fun a b => a ≤ b)
        ((cwShDict t).map Prod.fst) ≠ [] := by
      intro hc
      rw [hc] at hkslen
      have : (cwShDict t).map Prod.fst = [] :=
        List.length_eq_zero.mp hkslen.symm
      exact hsh (List.map_eq_nil_iff.mp this)
    have hact2 : 1 ≤ ((cwShDict t).map Prod.fst).sum :=
      one_le_sum_of_ne_nil _ (fun hc => hsh (List.map_eq_nil_iff.mp hc)) hkeys1
    apply redistLoop_sum_eq (cwDesired t) _ _ (cwStage2 t).length (cwShDict t) _
      (fun p hp => by
        rw [cwStage2_length]
        exact (cwShDict_mem t p hp).2)
    · rfl
    · omega
    · exact hksne
    · intro w hw
      exact hperm.mem_iff.mp hw
    · -- slack: stage2 sum plus the total floor shares stays within desired
      have hfl : ((List.insertionSort (fun a b => a ≤ b)
          ((cwShDict t).map Prod.fst)).map
            (fun w => w * (cwDesired t - (cwStage2 t).sum)
              / ((cwShDict t).map Prod.fst).sum)).sum
          = (((cwShDict t).map Prod.fst).map
            (fun w => w * (cwDesired t - (cwStage2 t).sum)
              / ((cwShDict t).map Prod.fst).sum)).sum :=
        (hperm.map _).sum_eq
      have hdiv : (((cwShDict t).map Prod.fst).map
          (fun w => w * (cwDesired t - (cwStage2 t).sum)
            / ((cwShDict t).map Prod.fst).sum)).sum
          ≤ cwDesired t - (cwStage2 t).sum := by
        calc (((cwShDict t).map Prod.fst).map
            (fun w => w * (cwDesired t - (cwStage2 t).sum)
              / ((cwShDict t).map Prod.fst).sum)).sum
            ≤ (((cwShDict t).map Prod.fst).map
                (fun w => w * (cwDesired t - (cwStage2 t).sum))).sum
                / ((cwShDict t).map Prod.fst).sum :=
              sum_map_div_le _ _ _
          _ = ((cwShDict t).map Prod.fst).sum
                * (cwDesired t - (cwStage2 t).sum)
                / ((cwShDict t).map Prod.fst).sum := by
              rw [sum_map_mul_right]
          _ ≤ cwDesired t - (cwStage2 t).sum := by
              rw [Nat.mul_comm, Nat.mul_div_assoc _ (dvd_refl _),
                Nat.div_self hact2, Nat.mul_one]
      rw [hfl]
      omega

/-- After the whole redistribution step the widths sum to at most
`desired_sum`, with equality whenever the dict is non-empty. -/
theorem cwStage3_sum_le (t : BTTable)
    (hlen : (btNaturalWidths t).length = t.ncol) :
    (cwStage3 t).sum ≤ cwDesired t := by
  by_cases hsh : cwShDict t = []
  · have : cwStage3 t = cwStage2 t := by
      simp [cwStage3, cwRedistribute, hsh]
    rw [this]
    exact cwStage2_sum_le t hlen
  · rw [cwStage3_sum_eq t hlen hsh]

theorem sum_zipWith_add (l1 l2 : List Nat) (h : l1.length = l2.length) :
    (List.zipWith (fun a b => a + b) l1 l2).sum = l1.sum + l2.sum := by
  induction l1 generalizing l2 with
  | nil =>
    cases l2 with
    | nil => simp
    | cons b bs => cases h
  | cons a as ih =>
    cases l2 with
    | nil => cases h
    | cons b bs =>
      simp only [List.zipWith_cons_cons, List.sum_cons]
      rw [ih bs (by simpa using h)]
      omega

theorem cwStage3_length (t : BTTable) :
    (cwStage3 t).length = (cwStage2 t).length := by
  simp only [cwStage3, cwRedistribute]
  by_cases h1 : (cwShDict t).isEmpty = true
  · rw [if_pos h1]
  · rw [if_neg h1]
    by_cases h2 : cwDesired t - (cwStage2 t).sum = 0
    · rw [if_pos h2]
    · rw [if_neg h2]
      exact redistLoop_length _ _ _ _ _ _ _ _

/-- C3 (counterexample): the claim says each shrunk column's *own* width gets
the floor share.  On three borderless zero-pad columns of natural widths
[1, 6, 6] under maxwidth 10, both wide columns shrink to 4 (the dict collapses
them into one entry) and the source adds the floor share at enumeration
position 0 — widening the flagged first column instead — producing widths
[2, 4, 4], while the documented policy produces [1, 4, 5]. -/
theorem c3_position_indexed_redistribution :
    (calculateWidth exC3).widths = [2, 4, 4] ∧
    claimAllocWidths exC3 = [1, 4, 5] ∧
    (calculateWidth exC3).widths ≠ claimAllocWidths exC3 := by
  refine ⟨by decide, by decide, by decide⟩

/-- C3 (amended): the leftover space is redistributed by iterating the
*distinct* shrunk widths in ascending order (columns shrunk to the same width
collapse to the last one), adding each floor share
`floor(width * extra / sum(distinct shrunk widths))` at the enumeration
position of the loop — not at the shrunk column itself — and on the final
iteration adding the recomputed residual at the recorded column index of the
largest shrunk width; after the step the widths sum exactly to the budget
minus the separator/border/padding offset. -/
theorem c3_redistribution_sum_exact (t : BTTable) (hwf : BTWF t)
    (hsh : cwShDict t ≠ []) :
    (cwStage3 t).sum = cwDesired t :=
  cwStage3_sum_eq t (by rw [btNaturalWidths_length, hwf.1]) hsh

theorem c3_witness : (cwStage3 exC3).sum = cwDesired exC3 :=
  c3_redistribution_sum_exact exC3 (by decide) (by decide)

/-- C4: after automatic width allocation the reported table width is the sum
of the column widths plus the separator and border charges, and it never
exceeds `max(configured maxwidth, minimum feasible width)` — the allocator
auto-expands the budget instead of failing. -/
theorem c4_allocated_width_bounded (t : BTTable) (hwf : BTWF t)
    (hn : 1 ≤ t.ncol) :
    btWidth (calculateWidth t)
      = (calculateWidth t).widths.sum
        + (t.ncol - 1) * termwidth t.columnSeparatorChar
        + termwidth t.leftBorderChar + termwidth t.rightBorderChar ∧
    btWidth (calculateWidth t) ≤ max t.maxwidth (btMinFeasibleWidth t) := by
  have hnz : t.ncol ≠ 0 := by omega
  have hlenN : (btNaturalWidths t).length = t.ncol := by
    rw [btNaturalWidths_length, hwf.1]
  have h1 : btWidth (calculateWidth t)
      = (calculateWidth t).widths.sum
        + (t.ncol - 1) * termwidth t.columnSeparatorChar
        + termwidth t.leftBorderChar + termwidth t.rightBorderChar := by
    unfold btWidth
    rw [if_neg (show ¬(calculateWidth t).ncol = 0 from by
      rw [calc_ncol_eq]; exact hnz)]
    rfl
  refine ⟨h1, ?_⟩
  have hw : (calculateWidth t).widths
      = List.zipWith (fun a b => a + b) (cwStage3 t) (btPadWidths t) := rfl
  have hlen3 : (cwStage3 t).length = (btPadWidths t).length := by
    rw [cwStage3_length, cwStage2_length, hlenN]
    unfold btPadWidths
    rw [List.length_zipWith, hwf.2.2.2.1, hwf.2.2.2.2.1]
    simp
  have hsums : (calculateWidth t).widths.sum
      = (cwStage3 t).sum + (btPadWidths t).sum := by
    rw [hw, sum_zipWith_add _ _ hlen3]
  have hs3 : (cwStage3 t).sum ≤ cwDesired t := cwStage3_sum_le t hlenN
  have hoff := cwOffset_eq_of_ncol_pos t hnz
  have hmf : btMinFeasibleWidth t = t.ncol + (btPadWidths t).sum
      + (t.ncol - 1) * termwidth t.columnSeparatorChar
      + termwidth t.leftBorderChar + termwidth t.rightBorderChar := rfl
  have hm : cwMaxwidth t = max t.maxwidth (cwOffset t + t.ncol) := rfl
  have hd : cwDesired t = cwMaxwidth t - cwOffset t := rfl
  have hmge : cwOffset t + t.ncol ≤ cwMaxwidth t := Nat.le_max_right _ _
  omega

theorem c4_witness :
    (btWidth (calculateWidth exC4)
      = (calculateWidth exC4).widths.sum
        + (exC4.ncol - 1) * termwidth exC4.columnSeparatorChar
        + termwidth exC4.leftBorderChar + termwidth exC4.rightBorderChar ∧
    btWidth (calculateWidth exC4) ≤ max exC4.maxwidth (btMinFeasibleWidth exC4)) :=
  c4_allocated_width_bounded exC4 (by decide) (by decide)
